import Mathlib

/-!
Verification of the baseline RAG notebook
(`06_sagemaker_fine_tuning/fine_tuning_workshop/2_build_baseline_rag.ipynb`).

We shallowly embed the code that the specification's claims concern:

* the retriever evaluation loop of cell-13 / cell-15 (Hit Rate and MRR over a
  labeled example set), with Python floats modelled as exact rationals;
* the vector-store create-or-load logic of cell-9;
* the batch guardrail scoring function `evaluate_rag_guardrail` of cell-29,
  with a fallible scoring call modelled as `Except`;
* the ensemble rank-fusion step.  The notebook delegates fusion to
  langchain's `EnsembleRetriever`, whose implementation is not part of this
  repository, so the fusion engine is modelled from the specification's own
  algorithm description (weighted membership votes, deterministic
  tie-breaking, sort descending, truncate to `k`).
-/

namespace BaselineRag

/-- One labeled example of the retriever evaluation set, as built in cell-11:
`{"ref_doc_id": ..., "question": ...}`. -/
structure EvalExample where
  ref_doc_id : String
  question : String
deriving DecidableEq

/-- The pair of retrieval metrics produced by the evaluation loop. -/
structure EvaluationResult where
  hit_rate : ℚ
  mrr : ℚ
deriving DecidableEq

/-- One iteration of the cell-13 evaluation loop, acting on the accumulator
`(correct, reciprocal_rank)`: retrieve, extract the id list, and if
`ref_doc_id` is present increment `correct` and add
`1 / (returned_doc_ids.index(ref_doc_id) + 1)`. -/
def evalStep (retrieve : String → List String) (acc : ℕ × ℚ)
    (eval_data : EvalExample) : ℕ × ℚ :=
  let returned_doc_ids := retrieve eval_data.question
  if eval_data.ref_doc_id ∈ returned_doc_ids then
    (acc.1 + 1,
      acc.2 + 1 / ((returned_doc_ids.indexOf eval_data.ref_doc_id : ℚ) + 1))
  else
    acc

/-- The cell-13 retriever evaluation: fold the loop body over
`retriever_evaluation_data[:num_examples]` starting from
`correct = 0, reciprocal_rank = 0`, then divide both accumulators by
`num_examples`. -/
def evaluateRetriever (retrieve : String → List String)
    (retriever_evaluation_data : List EvalExample) (num_examples : ℕ) :
    EvaluationResult :=
  let res := (retriever_evaluation_data.take num_examples).foldl
    (evalStep retrieve) (0, 0)
  { hit_rate := (res.1 : ℚ) / (num_examples : ℚ)
    mrr := res.2 / (num_examples : ℚ) }

/-- Specification-side per-example reciprocal-rank contribution: the
reciprocal of the 1-based position of `ref_doc_id` in the returned list, and
`0` when absent. -/
def reciprocalRankContribution (retrieve : String → List String)
    (eval_data : EvalExample) : ℚ :=
  if eval_data.ref_doc_id ∈ retrieve eval_data.question then
    1 / (((retrieve eval_data.question).indexOf eval_data.ref_doc_id : ℚ) + 1)
  else 0

/-- Specification-side hit count: the number of examples whose `ref_doc_id`
appears anywhere in the returned id list. -/
def hitCount (retrieve : String → List String) (l : List EvalExample) : ℕ :=
  l.countP (fun e => decide (e.ref_doc_id ∈ retrieve e.question))

/-- The synthetic example set of the spec's test scenario: 4 examples whose
reference documents are found at rank 1, rank 2, absent, absent. -/
def syntheticExamples : List EvalExample :=
  [⟨"d1", "q1"⟩, ⟨"d2", "q2"⟩, ⟨"d3", "q3"⟩, ⟨"d4", "q4"⟩]

/-- The synthetic retrieve function for that scenario: `q1` finds `d1` at
rank 1, `q2` finds `d2` at rank 2, the other queries miss. -/
def syntheticRetrieve : String → List String := fun q =>
  if q = "q1" then ["d1", "x", "y"]
  else if q = "q2" then ["x", "d2", "y"]
  else ["x", "y", "z"]

/-- A retrieve function whose returned id list contains the reference id
twice, for exercising the first-occurrence rule. -/
def dupRetrieve : String → List String := fun _ => ["a", "b", "b"]

/-- The example evaluated against `dupRetrieve`. -/
def dupExample : EvalExample := ⟨"b", "q"⟩

/-- The pair of contextual-grounding scores extracted from one
`invoke_rag_eval_guardrail` call (cell-25), as exact rationals. -/
structure GuardrailScore where
  grounding_score : ℚ
  relevance_score : ℚ
deriving DecidableEq

/-- The cell-29 row collection `[result.result() for result in results]`:
outcomes are read back in submission order, and the first failed call's
exception propagates out of the comprehension. -/
def collectResults {E A : Type} : List (Except E A) → Except E (List A)
  | [] => Except.ok []
  | Except.error e :: _ => Except.error e
  | Except.ok a :: rest => (collectResults rest).map (fun l => a :: l)

/-- The per-triple scoring outcomes submitted by `evaluate_rag_guardrail`
(cell-29): the three input lists are zipped into triples and each triple's
context list is newline-joined before the guardrail call. -/
def guardrailResults {E : Type}
    (invoke_guardrail : String → String → String → Except E GuardrailScore)
    (questions : List String) (contexts : List (List String))
    (answers : List String) : List (Except E GuardrailScore) :=
  ((questions.zip contexts).zip answers).map
    (fun t => invoke_guardrail t.1.1 (String.intercalate "\n" t.1.2) t.2)

/-- cell-29 `evaluate_rag_guardrail`: score every `(question, context,
answer)` triple, collect all rows in submission order, then return the
arithmetic means of the grounding and relevance scores.  The fallible
guardrail call is modelled as an `Except`-returning function, so a failure
anywhere aborts the batch and no mean is produced. -/
def evaluate_rag_guardrail {E : Type}
    (invoke_guardrail : String → String → String → Except E GuardrailScore)
    (questions : List String) (contexts : List (List String))
    (answers : List String) : Except E (ℚ × ℚ) :=
  match collectResults
      (guardrailResults invoke_guardrail questions contexts answers) with
  | Except.error e => Except.error e
  | Except.ok eval_rows =>
    let grounding_scores := eval_rows.map GuardrailScore.grounding_score
    let relevance_scores := eval_rows.map GuardrailScore.relevance_score
    Except.ok (grounding_scores.sum / (grounding_scores.length : ℚ),
               relevance_scores.sum / (relevance_scores.length : ℚ))

/-- A concrete guardrail scorer that fails on the question `"q2"` and scores
every other triple `⟨1, 1⟩`. -/
def failingInvokeGuardrail : String → String → String → Except String GuardrailScore :=
  fun question _ _ =>
    if question = "q2" then Except.error "guardrail call failed"
    else Except.ok ⟨1, 1⟩

/-- cell-9 create-or-load logic for the persisted vector store blob
`baseline_rag_vec_db.pkl`.  `existing_file` is the content of the
vector-store file before the cell runs (`none` when the file does not
exist).  If absent, a new store is built with `FAISS.from_documents` and its
serialized bytes are written; otherwise the existing bytes are deserialized
and reused.  The result pairs the vector store the notebook continues with
and the file's content after the cell ran. -/
def loadOrCreateVectorStore {VecDb Blob : Type}
    (serialize_to_bytes : VecDb → Blob)
    (deserialize_from_bytes : Blob → VecDb)
    (from_documents : VecDb) (existing_file : Option Blob) : VecDb × Blob :=
  match existing_file with
  | none => (from_documents, serialize_to_bytes from_documents)
  | some contents => (deserialize_from_bytes contents, contents)

/-- Modelled from the spec: the notebook delegates rank fusion to langchain's
`EnsembleRetriever` (cell-15), whose implementation is not part of this
repository; §4.1 of the spec describes the fusion algorithm.  The fused
score of a document is the sum of `weight_i` over the retrievers whose
top-k id list contains the document. -/
def fusedScore (lists : List (List String)) (weights : List ℚ)
    (d : String) : ℚ :=
  ((lists.zip weights).map (fun lw => if d ∈ lw.1 then lw.2 else 0)).sum

/-- Modelled from the spec: the retrievers that returned `d`, as
`(weight, original 0-based rank of d)` pairs in retriever order. -/
def contributing (lists : List (List String)) (weights : List ℚ)
    (d : String) : List (ℚ × ℕ) :=
  (lists.zip weights).filterMap
    (fun lw => if d ∈ lw.1 then some (lw.2, lw.1.indexOf d) else none)

/-- The entry of greatest weight, keeping the earliest entry on weight
ties. -/
def pickBest : List (ℚ × ℕ) → Option (ℚ × ℕ)
  | [] => none
  | x :: xs =>
    some (xs.foldl (fun best y => if best.1 < y.1 then y else best) x)

/-- Modelled from the spec: the tie-break key of §4.1 — the original rank of
`d` in the highest-weighted retriever that returned it. -/
def bestRank (lists : List (List String)) (weights : List ℚ)
    (d : String) : ℕ :=
  ((pickBest (contributing lists weights d)).map Prod.snd).getD 0

/-- Deduplication keeping the first occurrence of each id, preserving
order. -/
def dedupKeepFirst : List String → List String
  | [] => []
  | x :: xs => x :: dedupKeepFirst (xs.filter (fun y => decide (y ≠ x)))
termination_by l => l.length
decreasing_by
  simp only [List.length_cons]
  exact Nat.lt_succ_of_le (List.length_filter_le _ _)

/-- Modelled from the spec: the §4.1 ordering on fused candidates — higher
fused score first, ties broken by the lower original rank in the
highest-weighted contributing retriever. -/
def fuseRel (lists : List (List String)) (weights : List ℚ)
    (a b : String) : Prop :=
  fusedScore lists weights b < fusedScore lists weights a ∨
    (fusedScore lists weights a = fusedScore lists weights b ∧
      bestRank lists weights a ≤ bestRank lists weights b)

instance fuseRelDecidable (lists : List (List String)) (weights : List ℚ) :
    DecidableRel (fuseRel lists weights) := fun a b => by
  unfold fuseRel
  infer_instance

/-- Modelled from the spec: §4.1 weighted-vote rank fusion.  Candidates are
the documents returned by at least one retriever (first occurrence kept),
documents with zero contributing weight are dropped, the rest are sorted by
fused score descending with the deterministic tie-break, and the result is
truncated to `k`. -/
def fuse (lists : List (List String)) (weights : List ℚ) (k : ℕ) :
    List String :=
  let candidates := (dedupKeepFirst lists.flatten).filter
    (fun d => decide (0 < fusedScore lists weights d))
  (candidates.insertionSort (fuseRel lists weights)).take k

/-- Two concrete retriever result lists used to witness the fusion
theorems. -/
def demoLists : List (List String) := [["a", "b"], ["b", "c"]]

/-- The notebook's ensemble weights `[0.75, 0.25]` as rationals. -/
def demoWeights : List ℚ := [3 / 4, 1 / 4]

theorem evalStep_pos (retrieve : String → List String) {e : EvalExample}
    (c : ℕ) (s : ℚ) (h : e.ref_doc_id ∈ retrieve e.question) :
    evalStep retrieve (c, s) e =
      (c + 1,
       s + 1 / (((retrieve e.question).indexOf e.ref_doc_id : ℚ) + 1)) := by
  simp [evalStep, h]

theorem evalStep_neg (retrieve : String → List String) {e : EvalExample}
    (c : ℕ) (s : ℚ) (h : e.ref_doc_id ∉ retrieve e.question) :
    evalStep retrieve (c, s) e = (c, s) := by
  simp [evalStep, h]

/-- The evaluation fold computes exactly the hit count and the sum of
reciprocal-rank contributions, on top of any starting accumulator. -/
theorem evalFold (retrieve : String → List String) :
    ∀ (l : List EvalExample) (c : ℕ) (s : ℚ),
      l.foldl (evalStep retrieve) (c, s) =
        (c + hitCount retrieve l,
         s + (l.map (reciprocalRankContribution retrieve)).sum)
  | [], c, s => by simp [hitCount]
  | e :: l, c, s => by
    by_cases h : e.ref_doc_id ∈ retrieve e.question
    · rw [List.foldl_cons, evalStep_pos retrieve c s h, evalFold retrieve l]
      simp only [hitCount, List.countP_cons, List.map_cons, List.sum_cons,
        reciprocalRankContribution, h, decide_eq_true_eq, if_pos,
        Prod.mk.injEq]
      constructor
      · omega
      · ring
    · rw [List.foldl_cons, evalStep_neg retrieve c s h, evalFold retrieve l]
      simp only [hitCount, List.countP_cons, List.map_cons, List.sum_cons,
        reciprocalRankContribution, h, decide_eq_true_eq, if_neg,
        Prod.mk.injEq]
      constructor
      · simp [h]
      · simp [h]

theorem evaluateRetriever_hit_rate (retrieve : String → List String)
    (examples : List EvalExample) (n : ℕ) :
    (evaluateRetriever retrieve examples n).hit_rate =
      (hitCount retrieve (examples.take n) : ℚ) / (n : ℚ) := by
  have h := evalFold retrieve (examples.take n) 0 0
  simp only [evaluateRetriever, h]
  norm_num

theorem evaluateRetriever_mrr (retrieve : String → List String)
    (examples : List EvalExample) (n : ℕ) :
    (evaluateRetriever retrieve examples n).mrr =
      ((examples.take n).map (reciprocalRankContribution retrieve)).sum /
        (n : ℚ) := by
  have h := evalFold retrieve (examples.take n) 0 0
  simp only [evaluateRetriever, h]
  norm_num

theorem reciprocalRankContribution_nonneg (retrieve : String → List String)
    (e : EvalExample) : 0 ≤ reciprocalRankContribution retrieve e := by
  unfold reciprocalRankContribution
  by_cases h : e.ref_doc_id ∈ retrieve e.question
  · simp only [h, if_pos]
    positivity
  · simp [h]

theorem reciprocalRankContribution_le_one (retrieve : String → List String)
    (e : EvalExample) : reciprocalRankContribution retrieve e ≤ 1 := by
  unfold reciprocalRankContribution
  by_cases h : e.ref_doc_id ∈ retrieve e.question
  · simp only [h, if_pos]
    rw [div_le_one (by positivity)]
    have h0 : (0 : ℚ) ≤
        ((retrieve e.question).indexOf e.ref_doc_id : ℚ) := Nat.cast_nonneg _
    linarith
  · simp [h]

/-- The reciprocal-rank sum is bounded by the hit count: each hit contributes
at most `1`, each miss contributes `0`. -/
theorem rrSum_le_hitCount (retrieve : String → List String) :
    ∀ l : List EvalExample,
      (l.map (reciprocalRankContribution retrieve)).sum ≤
        (hitCount retrieve l : ℚ)
  | [] => by simp [hitCount]
  | e :: l => by
    by_cases h : e.ref_doc_id ∈ retrieve e.question
    · have hcount : hitCount retrieve (e :: l) = hitCount retrieve l + 1 := by
        simp [hitCount, List.countP_cons, h]
      rw [List.map_cons, List.sum_cons, hcount]
      push_cast
      have h1 := reciprocalRankContribution_le_one retrieve e
      have h2 := rrSum_le_hitCount retrieve l
      linarith
    · have hcount : hitCount retrieve (e :: l) = hitCount retrieve l := by
        simp [hitCount, List.countP_cons, h]
      rw [List.map_cons, List.sum_cons, hcount]
      have h1 : reciprocalRankContribution retrieve e = 0 := by
        simp [reciprocalRankContribution, h]
      rw [h1, zero_add]
      exact rrSum_le_hitCount retrieve l

theorem rrSum_nonneg (retrieve : String → List String) (l : List EvalExample) :
    0 ≤ (l.map (reciprocalRankContribution retrieve)).sum := by
  apply List.sum_nonneg
  intro x hx
  rcases List.mem_map.mp hx with ⟨e, _, rfl⟩
  exact reciprocalRankContribution_nonneg retrieve e

/-- An element never occurs in a list strictly before its `indexOf`
position. -/
theorem not_mem_take_indexOf {α : Type} [DecidableEq α] (a : α) :
    ∀ l : List α, a ∉ l.take (l.indexOf a)
  | [] => by simp
  | b :: l => by
    by_cases hba : b = a
    · subst hba
      simp [List.indexOf_cons_self]
    · rw [List.indexOf_cons_ne _ hba]
      simp only [List.take_succ_cons, List.mem_cons]
      push_neg
      exact ⟨fun h => hba h.symm, not_mem_take_indexOf a l⟩

/-- C1: the retrieval evaluation's MRR is the sum over all examples of the
reciprocal of the 1-based position of `ref_doc_id` in the returned id list
(`0` when absent), divided by the total example count. -/
theorem mrr_eq_sum_reciprocal_ranks_div_count
    (retrieve : String → List String) (examples : List EvalExample)
    (num_examples : ℕ) (h : num_examples = examples.length) :
    (evaluateRetriever retrieve examples num_examples).mrr =
      (examples.map (reciprocalRankContribution retrieve)).sum /
        (examples.length : ℚ) := by
  subst h
  rw [evaluateRetriever_mrr, List.take_length]

/-- Witness for C1 at the spec's synthetic scenario: 4 examples with ranks
1, 2, absent, absent give MRR `3/8 = 0.375`. -/
theorem mrr_eq_sum_reciprocal_ranks_div_count_witness :
    (4 : ℕ) = syntheticExamples.length ∧
      (evaluateRetriever syntheticRetrieve syntheticExamples 4).mrr =
        3 / 8 := by
  refine ⟨rfl, ?_⟩
  rw [mrr_eq_sum_reciprocal_ranks_div_count syntheticRetrieve
    syntheticExamples 4 rfl]
  have h1 : reciprocalRankContribution syntheticRetrieve ⟨"d1", "q1"⟩ = 1 := by
    unfold reciprocalRankContribution
    rw [if_pos (by decide)]
    rw [(by decide : (syntheticRetrieve "q1").indexOf "d1" = 0)]
    norm_num
  have h2 : reciprocalRankContribution syntheticRetrieve ⟨"d2", "q2"⟩ =
      1 / 2 := by
    unfold reciprocalRankContribution
    rw [if_pos (by decide)]
    rw [(by decide : (syntheticRetrieve "q2").indexOf "d2" = 1)]
    norm_num
  have h3 : reciprocalRankContribution syntheticRetrieve ⟨"d3", "q3"⟩ = 0 := by
    unfold reciprocalRankContribution
    rw [if_neg (by decide)]
  have h4 : reciprocalRankContribution syntheticRetrieve ⟨"d4", "q4"⟩ = 0 := by
    unfold reciprocalRankContribution
    rw [if_neg (by decide)]
  have hmap : syntheticExamples.map
      (reciprocalRankContribution syntheticRetrieve) = [1, 1 / 2, 0, 0] := by
    simp only [syntheticExamples, List.map_cons, List.map_nil, h1, h2, h3, h4]
  rw [hmap, (by decide : syntheticExamples.length = 4)]
  norm_num

/-- C4: the retrieval evaluation's Hit Rate equals exactly the number of
examples whose `ref_doc_id` appears anywhere in the returned id list, divided
by the total example count. -/
theorem hit_rate_eq_hit_count_div_count
    (retrieve : String → List String) (examples : List EvalExample)
    (num_examples : ℕ) (h : num_examples = examples.length) :
    (evaluateRetriever retrieve examples num_examples).hit_rate =
      (hitCount retrieve examples : ℚ) / (examples.length : ℚ) := by
  subst h
  rw [evaluateRetriever_hit_rate, List.take_length]

/-- Witness for C4 at the synthetic scenario: 2 hits out of 4 examples give
Hit Rate `1/2`. -/
theorem hit_rate_eq_hit_count_div_count_witness :
    (4 : ℕ) = syntheticExamples.length ∧
      (evaluateRetriever syntheticRetrieve syntheticExamples 4).hit_rate =
        (hitCount syntheticRetrieve syntheticExamples : ℚ) /
          (syntheticExamples.length : ℚ) :=
  ⟨rfl, hit_rate_eq_hit_count_div_count syntheticRetrieve syntheticExamples
    4 rfl⟩

/-- C7: when the returned id list contains `ref_doc_id` (possibly more than
once), the loop body adds the reciprocal of `indexOf + 1`, and `indexOf` is
the first (lowest-index) occurrence: the list holds `ref_doc_id` at that
index and nowhere before it. -/
theorem evalStep_uses_first_occurrence (retrieve : String → List String)
    (e : EvalExample) (acc : ℕ × ℚ)
    (h : e.ref_doc_id ∈ retrieve e.question) :
    (evalStep retrieve acc e).2 =
        acc.2 +
          1 / (((retrieve e.question).indexOf e.ref_doc_id : ℚ) + 1) ∧
      (retrieve e.question).get?
          ((retrieve e.question).indexOf e.ref_doc_id) = some e.ref_doc_id ∧
      e.ref_doc_id ∉
        (retrieve e.question).take
          ((retrieve e.question).indexOf e.ref_doc_id) := by
  refine ⟨by simp [evalStep, h], List.indexOf_get? h, ?_⟩
  exact not_mem_take_indexOf e.ref_doc_id (retrieve e.question)

/-- Witness for C7: the list `["a", "b", "b"]` holds `"b"` twice; the rank
used is the first occurrence (index 1, reciprocal `1/2`). -/
theorem evalStep_uses_first_occurrence_witness :
    dupExample.ref_doc_id ∈ dupRetrieve dupExample.question ∧
      ((evalStep dupRetrieve (0, 0) dupExample).2 =
          ((0, 0) : ℕ × ℚ).2 +
            1 / (((dupRetrieve dupExample.question).indexOf
              dupExample.ref_doc_id : ℚ) + 1) ∧
        (dupRetrieve dupExample.question).get?
            ((dupRetrieve dupExample.question).indexOf
              dupExample.ref_doc_id) = some dupExample.ref_doc_id ∧
        dupExample.ref_doc_id ∉
          (dupRetrieve dupExample.question).take
            ((dupRetrieve dupExample.question).indexOf
              dupExample.ref_doc_id)) :=
  ⟨by decide,
    evalStep_uses_first_occurrence dupRetrieve dupExample (0, 0) (by decide)⟩

/-- C8: both metrics produced by the retrieval evaluation lie in `[0, 1]`. -/
theorem hit_rate_mrr_in_unit_interval (retrieve : String → List String)
    (examples : List EvalExample) (num_examples : ℕ) :
    0 ≤ (evaluateRetriever retrieve examples num_examples).hit_rate ∧
      (evaluateRetriever retrieve examples num_examples).hit_rate ≤ 1 ∧
      0 ≤ (evaluateRetriever retrieve examples num_examples).mrr ∧
      (evaluateRetriever retrieve examples num_examples).mrr ≤ 1 := by
  rw [evaluateRetriever_hit_rate, evaluateRetriever_mrr]
  have hlen : (examples.take num_examples).length ≤ num_examples := by
    rw [List.length_take]
    exact min_le_left _ _
  have hcount : hitCount retrieve (examples.take num_examples) ≤
      num_examples :=
    le_trans (List.countP_le_length _) hlen
  rcases Nat.eq_zero_or_pos num_examples with hn | hn
  · subst hn
    simp [hitCount]
  · have hnpos : (0 : ℚ) < (num_examples : ℚ) := by exact_mod_cast hn
    refine ⟨by positivity, ?_, ?_, ?_⟩
    · rw [div_le_one hnpos]
      exact_mod_cast hcount
    · exact div_nonneg (rrSum_nonneg retrieve _) (le_of_lt hnpos)
    · rw [div_le_one hnpos]
      calc ((examples.take num_examples).map
              (reciprocalRankContribution retrieve)).sum
          ≤ (hitCount retrieve (examples.take num_examples) : ℚ) :=
            rrSum_le_hitCount retrieve _
        _ ≤ (num_examples : ℚ) := by exact_mod_cast hcount

/-- C10: the retrieval evaluation's MRR never exceeds its Hit Rate: each hit
contributes `1` to the hit count but at most `1` to the reciprocal-rank sum,
over the same denominator. -/
theorem mrr_le_hit_rate (retrieve : String → List String)
    (examples : List EvalExample) (num_examples : ℕ) :
    (evaluateRetriever retrieve examples num_examples).mrr ≤
      (evaluateRetriever retrieve examples num_examples).hit_rate := by
  rw [evaluateRetriever_hit_rate, evaluateRetriever_mrr]
  rcases Nat.eq_zero_or_pos num_examples with hn | hn
  · subst hn
    simp
  · have hnpos : (0 : ℚ) < (num_examples : ℚ) := by exact_mod_cast hn
    rw [div_le_div_iff_of_pos_right hnpos]
    exact rrSum_le_hitCount retrieve _

/-- Collecting outcomes in submission order surfaces the error of the first
failing call when every earlier call succeeded. -/
theorem collectResults_error {E A : Type} :
    ∀ (l : List (Except E A)) (j : ℕ) (hj : j < l.length) (e : E),
      l.get ⟨j, hj⟩ = Except.error e →
      (∀ i (hi : i < j), ∃ a, l.get ⟨i, lt_trans hi hj⟩ = Except.ok a) →
      collectResults l = Except.error e
  | [], j, hj, e, _, _ => absurd hj (by simp)
  | x :: rest, 0, _, e, herr, _ => by
    rw [List.get] at herr
    subst herr
    rfl
  | x :: rest, j + 1, hj, e, herr, hok => by
    obtain ⟨a, ha⟩ := hok 0 (Nat.succ_pos j)
    rw [List.get] at ha
    subst ha
    have hrest : collectResults rest = Except.error e := by
      apply collectResults_error rest j (Nat.lt_of_succ_lt_succ hj) e
      · exact herr
      · intro i hi
        exact hok (i + 1) (Nat.succ_lt_succ hi)
    show (collectResults rest).map (fun l => a :: l) = Except.error e
    rw [hrest]
    rfl

/-- C3: when the scoring call fails on the triple at index `j` and succeeds
on every earlier triple, the batch evaluation surfaces that triple's failure
and produces no mean grounding or relevance value. -/
theorem evaluate_rag_guardrail_fail_fast {E : Type}
    (invoke_guardrail : String → String → String → Except E GuardrailScore)
    (questions : List String) (contexts : List (List String))
    (answers : List String) (j : ℕ) (e : E)
    (hj : j <
      (guardrailResults invoke_guardrail questions contexts answers).length)
    (herr : (guardrailResults invoke_guardrail questions contexts
      answers).get ⟨j, hj⟩ = Except.error e)
    (hok : ∀ i (hi : i < j), ∃ s,
      (guardrailResults invoke_guardrail questions contexts answers).get
        ⟨i, lt_trans hi hj⟩ = Except.ok s) :
    evaluate_rag_guardrail invoke_guardrail questions contexts answers =
      Except.error e := by
  unfold evaluate_rag_guardrail
  rw [collectResults_error _ j hj e herr hok]

/-- Witness for C3: with three triples and a scorer that fails on the second
question, the batch evaluation surfaces that failure. -/
theorem evaluate_rag_guardrail_fail_fast_witness :
    evaluate_rag_guardrail failingInvokeGuardrail ["q1", "q2", "q3"]
        [["c1"], ["c2"], ["c3"]] ["a1", "a2", "a3"] =
      Except.error "guardrail call failed" :=
  evaluate_rag_guardrail_fail_fast failingInvokeGuardrail
    ["q1", "q2", "q3"] [["c1"], ["c2"], ["c3"]] ["a1", "a2", "a3"] 1
    "guardrail call failed" (by decide) rfl
    (fun i hi => by
      have h0 : i = 0 := Nat.lt_one_iff.mp hi
      subst h0
      exact ⟨⟨1, 1⟩, rfl⟩)

/-- Elements of the first-occurrence deduplication come from the original
list. -/
theorem mem_dedupKeepFirst : ∀ (l : List String) (a : String),
    a ∈ dedupKeepFirst l → a ∈ l
  | [], a, h => by simp [dedupKeepFirst] at h
  | x :: xs, a, h => by
    rw [dedupKeepFirst] at h
    rcases List.mem_cons.mp h with h1 | h2
    · exact h1 ▸ List.mem_cons_self x xs
    · have hmem := mem_dedupKeepFirst (xs.filter (fun y => decide (y ≠ x))) a h2
      exact List.mem_cons_of_mem x (List.mem_of_mem_filter hmem)
termination_by l => l.length
decreasing_by
  simp only [List.length_cons]
  exact Nat.lt_succ_of_le (List.length_filter_le _ _)

theorem fuseRel_total (lists : List (List String)) (weights : List ℚ) :
    ∀ a b, fuseRel lists weights a b ∨ fuseRel lists weights b a := by
  intro a b
  rcases lt_trichotomy (fusedScore lists weights a)
    (fusedScore lists weights b) with h | h | h
  · exact Or.inr (Or.inl h)
  · rcases le_total (bestRank lists weights a) (bestRank lists weights b)
      with hb | hb
    · exact Or.inl (Or.inr ⟨h, hb⟩)
    · exact Or.inr (Or.inr ⟨h.symm, hb⟩)
  · exact Or.inl (Or.inl h)

theorem fuseRel_trans (lists : List (List String)) (weights : List ℚ) :
    ∀ a b c, fuseRel lists weights a b → fuseRel lists weights b c →
      fuseRel lists weights a c := by
  intro a b c hab hbc
  rcases hab with h1 | ⟨h1, h1'⟩ <;> rcases hbc with h2 | ⟨h2, h2'⟩
  · exact Or.inl (lt_trans h2 h1)
  · exact Or.inl (h2 ▸ h1)
  · exact Or.inl (by rw [h1]; exact h2)
  · exact Or.inr ⟨h1.trans h2, le_trans h1' h2'⟩

/-- C2: the fused score of a document is the sum of `weight_i` over exactly
the retriever indices whose returned list contains the document — one
`weight_i` contribution per retriever that returned it. -/
theorem fusedScore_eq_sum_over_returning_retrievers
    (lists : List (List String)) (weights : List ℚ)
    (h : lists.length = weights.length) (d : String) :
    fusedScore lists weights d =
      ∑ i ∈ Finset.range lists.length,
        if d ∈ lists.getD i [] then weights.getD i 0 else 0 := by
  induction lists generalizing weights with
  | nil => simp [fusedScore]
  | cons l ls ih =>
    cases weights with
    | nil => simp at h
    | cons w ws =>
      have hlen : ls.length = ws.length := by simpa using h
      have lhs : fusedScore (l :: ls) (w :: ws) d =
          (if d ∈ l then w else 0) + fusedScore ls ws d := by
        simp [fusedScore, List.zip_cons_cons]
      rw [lhs, ih ws hlen, List.length_cons, Finset.sum_range_succ']
      simp only [List.getD_cons_succ, List.getD_cons_zero]
      ring

/-- Witness for C2 at the notebook's weights `[0.75, 0.25]`: the document
`"b"` is returned by both retrievers and accumulates both weights. -/
theorem fusedScore_eq_sum_over_returning_retrievers_witness :
    demoLists.length = demoWeights.length ∧
      fusedScore demoLists demoWeights "b" =
        ∑ i ∈ Finset.range demoLists.length,
          if "b" ∈ demoLists.getD i [] then demoWeights.getD i 0 else 0 :=
  ⟨rfl, fusedScore_eq_sum_over_returning_retrievers demoLists demoWeights
    rfl "b"⟩

/-- C5: the fused result is sorted by fused score in descending order,
holds at most `k` hits, and every returned document was returned by at least
one participating retriever. -/
theorem fuse_sorted_desc_truncated (lists : List (List String))
    (weights : List ℚ) (k : ℕ) :
    List.Sorted
        (fun a b => fusedScore lists weights b ≤ fusedScore lists weights a)
        (fuse lists weights k) ∧
      (fuse lists weights k).length ≤ k ∧
      ∀ d ∈ fuse lists weights k, ∃ l ∈ lists, d ∈ l := by
  haveI : IsTotal String (fuseRel lists weights) :=
    ⟨fuseRel_total lists weights⟩
  haveI : IsTrans String (fuseRel lists weights) :=
    ⟨fuseRel_trans lists weights⟩
  have hfuse : fuse lists weights k =
      (((dedupKeepFirst lists.flatten).filter
          (fun d => decide (0 < fusedScore lists weights d))).insertionSort
        (fuseRel lists weights)).take k := rfl
  refine ⟨?_, ?_, ?_⟩
  · rw [hfuse]
    have hs := List.sorted_insertionSort (fuseRel lists weights)
      ((dedupKeepFirst lists.flatten).filter
        (fun d => decide (0 < fusedScore lists weights d)))
    have ht := List.Pairwise.sublist (List.take_sublist k _) hs
    refine List.Pairwise.imp ?_ ht
    intro a b hab
    rcases hab with h1 | ⟨h2, _⟩
    · exact le_of_lt h1
    · exact le_of_eq h2.symm
  · rw [hfuse, List.length_take]
    exact min_le_left _ _
  · intro d hd
    rw [hfuse] at hd
    have hd1 := List.take_subset _ _ hd
    rw [List.mem_insertionSort] at hd1
    have hd2 := List.mem_of_mem_filter hd1
    exact List.mem_flatten.mp (mem_dedupKeepFirst _ _ hd2)

/-- Witness for C5 at the demo retriever lists and the notebook's
weights. -/
theorem fuse_sorted_desc_truncated_witness :
    List.Sorted
        (fun a b => fusedScore demoLists demoWeights b ≤
          fusedScore demoLists demoWeights a)
        (fuse demoLists demoWeights 2) ∧
      (fuse demoLists demoWeights 2).length ≤ 2 ∧
      ∀ d ∈ fuse demoLists demoWeights 2, ∃ l ∈ demoLists, d ∈ l :=
  fuse_sorted_desc_truncated demoLists demoWeights 2

theorem fusedScore_one_zero (l1 l2 : List String) (d : String) :
    fusedScore [l1, l2] [1, 0] d = if d ∈ l1 then 1 else 0 := by
  by_cases h : d ∈ l1 <;> simp [fusedScore, h]

theorem bestRank_one_zero (l1 l2 : List String) (d : String)
    (hd : d ∈ l1) :
    bestRank [l1, l2] [1, 0] d = l1.indexOf d := by
  by_cases h2 : d ∈ l2
  · have hc : contributing [l1, l2] [1, 0] d =
        [(1, l1.indexOf d), (0, l2.indexOf d)] := by
      simp [contributing, hd, h2]
    rw [bestRank, hc, pickBest]
    simp only [List.foldl_cons, List.foldl_nil]
    rw [if_neg (by norm_num)]
    rfl
  · have hc : contributing [l1, l2] [1, 0] d = [(1, l1.indexOf d)] := by
      simp [contributing, hd, h2]
    rw [bestRank, hc, pickBest]
    rfl

theorem indexOf_get_of_nodup (l : List String) (h : l.Nodup)
    (i : Fin l.length) : l.indexOf (l.get i) = i := by
  have hmem : l.get i ∈ l := l.get_mem i.1 i.2
  have hlt : l.indexOf (l.get i) < l.length := List.indexOf_lt_length.mpr hmem
  have hget : l.get ⟨l.indexOf (l.get i), hlt⟩ = l.get i :=
    List.indexOf_get hlt
  have hfin := (List.Nodup.get_inj_iff h).mp hget
  exact congrArg Fin.val hfin

/-- A duplicate-free first retriever list is already ordered by the fusion
relation with weights `[1, 0]`: every document scores `1` and ties are broken
by its own original rank. -/
theorem sorted_fuseRel_one_zero (l1 l2 : List String) (h1 : l1.Nodup) :
    List.Sorted (fuseRel [l1, l2] [1, 0]) l1 := by
  rw [List.Sorted, List.pairwise_iff_get]
  intro i j hij
  have hmi : l1.get i ∈ l1 := l1.get_mem i.1 i.2
  have hmj : l1.get j ∈ l1 := l1.get_mem j.1 j.2
  right
  constructor
  · rw [fusedScore_one_zero, fusedScore_one_zero, if_pos hmi, if_pos hmj]
  · rw [bestRank_one_zero l1 l2 _ hmi, bestRank_one_zero l1 l2 _ hmj,
      indexOf_get_of_nodup l1 h1 i, indexOf_get_of_nodup l1 h1 j]
    exact le_of_lt hij

/-- Filtering the first-occurrence deduplication of `l1 ++ l2` down to the
members of a duplicate-free `l1` recovers `l1` itself. -/
theorem filter_dedupKeepFirst_append :
    ∀ (l1 l2 : List String), l1.Nodup →
      (dedupKeepFirst (l1 ++ l2)).filter (fun d => decide (d ∈ l1)) = l1
  | [], l2, _ => by simp
  | x :: xs, l2, hnd => by
    obtain ⟨hx, hxs⟩ := List.nodup_cons.mp hnd
    rw [List.cons_append, dedupKeepFirst, List.filter_cons]
    rw [if_pos (by simp)]
    have hfapp : (xs ++ l2).filter (fun y => decide (y ≠ x)) =
        xs ++ l2.filter (fun y => decide (y ≠ x)) := by
      rw [List.filter_append]
      congr 1
      apply List.filter_eq_self.mpr
      intro a ha
      simp only [decide_eq_true_eq]
      intro hax
      exact hx (hax ▸ ha)
    rw [hfapp]
    have hcongr : (dedupKeepFirst
          (xs ++ l2.filter (fun y => decide (y ≠ x)))).filter
            (fun d => decide (d ∈ x :: xs)) =
        (dedupKeepFirst
          (xs ++ l2.filter (fun y => decide (y ≠ x)))).filter
            (fun d => decide (d ∈ xs)) := by
      apply List.filter_congr
      intro a ha
      have hmem := mem_dedupKeepFirst _ _ ha
      have hne : a ≠ x := by
        rcases List.mem_append.mp hmem with h | h
        · intro hax
          exact hx (hax ▸ h)
        · have := List.of_mem_filter h
          simpa using this
      simp [List.mem_cons, hne]
    rw [hcongr, filter_dedupKeepFirst_append xs
      (l2.filter (fun y => decide (y ≠ x))) hxs]

/-- C6: fusing two retrievers with weights `[1, 0]` returns exactly the
first retriever's documents in exactly the first retriever's order. -/
theorem fuse_weights_one_zero (l1 l2 : List String) (k : ℕ)
    (h1 : l1.Nodup) (hk : l1.length ≤ k) :
    fuse [l1, l2] [1, 0] k = l1 := by
  have hfuse : fuse [l1, l2] [1, 0] k =
      (((dedupKeepFirst ([l1, l2] : List (List String)).flatten).filter
          (fun d => decide (0 < fusedScore [l1, l2] [1, 0] d))).insertionSort
        (fuseRel [l1, l2] [1, 0])).take k := rfl
  have hflat : ([l1, l2] : List (List String)).flatten = l1 ++ l2 := by simp
  have hcand : (dedupKeepFirst (l1 ++ l2)).filter
      (fun d => decide (0 < fusedScore [l1, l2] [1, 0] d)) = l1 := by
    have hp : ∀ a ∈ dedupKeepFirst (l1 ++ l2),
        decide (0 < fusedScore [l1, l2] [1, 0] a) = decide (a ∈ l1) := by
      intro a _
      rw [fusedScore_one_zero]
      by_cases ha : a ∈ l1
      · simp [ha]
      · simp [ha]
    rw [List.filter_congr hp]
    exact filter_dedupKeepFirst_append l1 l2 h1
  rw [hfuse, hflat, hcand,
    List.Sorted.insertionSort_eq (sorted_fuseRel_one_zero l1 l2 h1),
    List.take_of_length_le hk]

/-- Witness for C6: with `l1 = ["a", "b"]`, `l2 = ["b", "c"]`, `k = 2`, the
fusion with weights `[1, 0]` returns exactly `["a", "b"]`. -/
theorem fuse_weights_one_zero_witness :
    (["a", "b"] : List String).Nodup ∧
      (["a", "b"] : List String).length ≤ 2 ∧
      fuse [["a", "b"], ["b", "c"]] [1, 0] 2 = ["a", "b"] :=
  ⟨by decide, by decide,
    fuse_weights_one_zero ["a", "b"] ["b", "c"] 2 (by decide) (by decide)⟩

/-- C9: cell-9 has existence-check-before-create semantics.  When the index
file is absent the store is built from the documents and its serialization
persisted; when the file is present its content is deserialized and reused
and the file content is left exactly as it was. -/
theorem loadOrCreateVectorStore_check_before_create {VecDb Blob : Type}
    (serialize_to_bytes : VecDb → Blob)
    (deserialize_from_bytes : Blob → VecDb) (from_documents : VecDb) :
    loadOrCreateVectorStore serialize_to_bytes deserialize_from_bytes
        from_documents none =
      (from_documents, serialize_to_bytes from_documents) ∧
    ∀ contents : Blob,
      loadOrCreateVectorStore serialize_to_bytes deserialize_from_bytes
          from_documents (some contents) =
        (deserialize_from_bytes contents, contents) :=
  ⟨rfl, fun _ => rfl⟩

end BaselineRag
